import Mathlib

/-
Shallow embedding of the house-design tool geometry and estimation routines.
Numeric values of the program are modelled as exact rationals, except the
roof-area routine, which uses trigonometry and is modelled over the reals.
-/

namespace House

/-- JS Math.round rounds half toward positive infinity. -/
def jsRound (x : ℚ) : ℤ := Int.floor (x + 1 / 2)

/-- Plan coordinates in meters, from the Point2D interface. -/
structure Point2D where
  x : ℚ
  z : ℚ
deriving DecidableEq

instance : Inhabited Point2D := ⟨⟨0, 0⟩⟩

/-- wallArea from part_000. -/
def wallArea (length height : ℚ) : ℚ := length * height

/-- The per-unit rate table fields used by estimateMaterials in part_000. -/
structure Rates where
  hollowblock_per_piece : ℚ
  hollowblock_size_sqm : ℚ
  cement_bag_per_sqm : ℚ
  cement_price_per_bag : ℚ
  rebar_price_per_kg : ℚ
  labor_per_sqm : ℚ
  roof_price_per_sqm : ℚ
deriving DecidableEq

/-- The default rates constant of part_000. -/
def rates : Rates :=
  ⟨15, 8 / 100, 45 / 100, 270, 75, 380, 150⟩

/-- Shape of the wall records consumed by estimateMaterials in part_000:
a precomputed length together with a height. -/
structure EstWall where
  length : ℚ
  height : ℚ
deriving DecidableEq

/-- Result record of estimateMaterials in part_000. -/
structure EstimateResults where
  totalWallArea : ℚ
  hollowblock_count : ℤ
  cement_bags : ℤ
  rebar_cost : ℚ
  material_cost : ℚ
  labor_cost : ℚ
  total_cost : ℤ
deriving DecidableEq

/-- estimateMaterials from part_000, with the sequential accumulation of
material_cost written out as successive let bindings. -/
def estimateMaterials (walls : List EstWall) (roofArea : ℚ) (config : Rates) :
    EstimateResults :=
  let totalWallArea := walls.foldl (fun s w => s + wallArea w.length w.height) 0
  let hollowblock_count : ℤ := Int.ceil (totalWallArea / config.hollowblock_size_sqm)
  let mc1 := (hollowblock_count : ℚ) * config.hollowblock_per_piece
  let cement_bags : ℤ := Int.ceil (totalWallArea * config.cement_bag_per_sqm)
  let mc2 := mc1 + (cement_bags : ℚ) * config.cement_price_per_bag
  let totalPerimeter := walls.foldl (fun s w => s + w.length) 0
  let assumedRebarKg := totalPerimeter * 2
  let rebar_cost := assumedRebarKg * config.rebar_price_per_kg
  let mc3 := mc2 + rebar_cost
  let labor_cost := totalWallArea * config.labor_per_sqm
  let roof_material_est := roofArea * config.roof_price_per_sqm
  let mc4 := mc3 + roof_material_est
  let total_cost : ℤ := jsRound (mc4 + labor_cost)
  ⟨totalWallArea, hollowblock_count, cement_bags, rebar_cost, mc4, labor_cost, total_cost⟩

/-- Bounding box handed to roofAreaFromBounds in part_000. -/
structure RoofBounds where
  minX : ℝ
  maxX : ℝ
  minZ : ℝ
  maxZ : ℝ

/-- roofAreaFromBounds from part_000: two-slope gabled roof area. -/
noncomputable def roofAreaFromBounds (bounds : Option RoofBounds)
    (roofPitch overhang : ℝ) : ℝ :=
  match bounds with
  | none => 0
  | some b =>
      let width := max 0.001 |b.maxX - b.minX|
      let depth := max 0.001 |b.maxZ - b.minZ|
      let widthWithOverhang := width + 2 * overhang
      let depthWithOverhang := depth + 2 * overhang
      let roofRun := widthWithOverhang / 2
      let pitchRad := roofPitch * Real.pi / 180
      let slopeFactor := 1 / Real.cos pitchRad
      let singleSideArea := roofRun * depthWithOverhang * slopeFactor
      singleSideArea * 2

/-- snapToGrid from floor-plan-designer.tsx: Math.round(value / gridSize) * gridSize. -/
def snapToGrid (value gridSize : ℚ) : ℚ :=
  (jsRound (value / gridSize) : ℚ) * gridSize

/-- calculatePolygonArea from part_001 and part_003: index loop accumulating
the shoelace determinant terms, then absolute value over two. -/
def calculatePolygonArea (points : List Point2D) : ℚ :=
  if points.length < 3 then 0
  else
    let n := points.length
    let area := (List.range n).foldl
      (fun a i =>
        let j := (i + 1) % n
        a + (points.getD i default).x * (points.getD j default).z
          - (points.getD j default).x * (points.getD i default).z) 0
    |area| / 2

/-- Window interface from part_001. -/
structure Window where
  id : String
  position : ℚ
  width : ℚ
  height : ℚ
  style : String
  sillHeight : ℚ
  color : String
deriving DecidableEq

/-- Door interface from part_001. -/
structure Door where
  id : String
  position : ℚ
  width : ℚ
  height : ℚ
  style : String
  color : String
deriving DecidableEq

/-- Staircase interface from part_001. -/
structure Staircase where
  id : String
  position : Point2D
  rotation : ℚ
  width : ℚ
  fromFloor : ℕ
  toFloor : ℕ
  style : String
  color : String
deriving DecidableEq

/-- Wall interface from part_001. The end point is named endP because end is
a reserved word in Lean. -/
structure Wall where
  id : String
  start : Point2D
  endP : Point2D
  height : ℚ
  thickness : ℚ
  windows : List Window
  doors : List Door
  material : String
  color : String
  wallType : String
deriving DecidableEq

/-- Beam interface from part_001. -/
structure Beam where
  id : String
  start : Point2D
  endP : Point2D
  height : ℚ
  width : ℚ
  depth : ℚ
  material : String
  color : String
  floorLevel : ℕ
deriving DecidableEq

/-- Floor interface from part_001. -/
structure Floor where
  id : String
  level : ℕ
  height : ℚ
  walls : List Wall
  beams : List Beam
  color : String
  texture : String
deriving DecidableEq

/-- Plot bounds record from part_001. -/
structure PlotBounds where
  width : ℚ
  depth : ℚ
deriving DecidableEq

/-- FloorPlan interface from part_001. -/
structure FloorPlan where
  walls : List Wall
  totalArea : ℚ
  plotBounds : PlotBounds
  floors : List Floor
  staircases : List Staircase
  roofStyle : String
  roofColor : String
  roofSlopeDirection : String
deriving DecidableEq

/-- Component state of AdvancedHouseBuilder that the modelled handlers read:
the floor plan, the current floor, and the wall creation settings. -/
structure FPState where
  floorPlan : FloorPlan
  currentFloor : ℕ
  wallHeight : ℚ
  wallThickness : ℚ
  wallMaterial : String
  wallColor : String
deriving DecidableEq

/-- Initial floor plan of AdvancedHouseBuilder: 20 m by 10 m plot and one
empty floor at level 1. -/
def initialFloorPlan : FloorPlan :=
  { walls := []
    totalArea := 0
    plotBounds := ⟨20, 10⟩
    floors := [⟨"1", 1, 3, [], [], "#d1d5db", "concrete"⟩]
    staircases := []
    roofStyle := "flat"
    roofColor := "#8B4513"
    roofSlopeDirection := "north" }

/-- Initial component state: floor 1 selected, default wall settings. -/
def initState : FPState :=
  ⟨initialFloorPlan, 1, 3, 15 / 100, "concrete", "#d1d5db"⟩

/-- The fixed plot area cap from part_001. -/
def maxPlotArea : ℚ := 200

/-- The dimension argument of handlePlotResize. -/
inductive Dimension where
  | width
  | depth
deriving DecidableEq

/-- Spread update of one plot dimension, as in handlePlotResize. -/
def setDimension (b : PlotBounds) (d : Dimension) (value : ℚ) : PlotBounds :=
  match d with
  | .width => { b with width := value }
  | .depth => { b with depth := value }

/-- handlePlotResize from part_001: apply the new bounds only when the
resulting area stays within the cap. -/
def handlePlotResize (s : FPState) (d : Dimension) (value : ℚ) : FPState :=
  let newBounds := setDimension s.floorPlan.plotBounds d value
  if newBounds.width * newBounds.depth ≤ maxPlotArea then
    { s with floorPlan := { s.floorPlan with plotBounds := newBounds } }
  else s

/-- Fold a sequence of plot resize requests over a state. -/
def applyResizes (s : FPState) (ops : List (Dimension × ℚ)) : FPState :=
  ops.foldl (fun st op => handlePlotResize st op.1 op.2) s

/-- The current plot area of a state, width times depth. -/
def plotArea (s : FPState) : ℚ :=
  s.floorPlan.plotBounds.width * s.floorPlan.plotBounds.depth

/-- Footprint bounding box returned by getFloor1Footprint. -/
structure Footprint where
  minX : ℚ
  maxX : ℚ
  minZ : ℚ
  maxZ : ℚ
deriving DecidableEq

/-- Minimum of a list of rationals; the empty case is never reached by the
source because it checks for emptiness first. -/
def listMin : List ℚ → ℚ
  | [] => 0
  | x :: xs => xs.foldl min x

/-- Maximum of a list of rationals, same convention as listMin. -/
def listMax : List ℚ → ℚ
  | [] => 0
  | x :: xs => xs.foldl max x

/-- The endpoint x coordinates collected by getFloor1Footprint. -/
def wallXs (walls : List Wall) : List ℚ :=
  (walls.map (fun w => [w.start.x, w.endP.x])).flatten

/-- The endpoint z coordinates collected by getFloor1Footprint. -/
def wallZs (walls : List Wall) : List ℚ :=
  (walls.map (fun w => [w.start.z, w.endP.z])).flatten

/-- getFloor1Footprint from part_001: bounding box of all endpoint
coordinates of the level 1 walls, or none when floor 1 is absent or empty. -/
def getFloor1Footprint (fp : FloorPlan) : Option Footprint :=
  match fp.floors.find? (fun f => f.level == 1) with
  | none => none
  | some floor1 =>
      if floor1.walls.isEmpty then none
      else
        let xs := wallXs floor1.walls
        let zs := wallZs floor1.walls
        if xs.isEmpty then none
        else some ⟨listMin xs, listMax xs, listMin zs, listMax zs⟩

/-- The plot rectangle test inside isPointWithinBounds. -/
def withinPlot (b : PlotBounds) (p : Point2D) : Bool :=
  (-(b.width / 2) ≤ p.x) && (p.x ≤ b.width / 2) &&
    (-(b.depth / 2) ≤ p.z) && (p.z ≤ b.depth / 2)

/-- The floor 1 footprint test inside isPointWithinBounds. -/
def withinFootprint (fb : Footprint) (p : Point2D) : Bool :=
  (fb.minX ≤ p.x) && (p.x ≤ fb.maxX) && (fb.minZ ≤ p.z) && (p.z ≤ fb.maxZ)

/-- isPointWithinBounds from part_001: on floor 1 a point must be inside the
plot rectangle; on upper floors it must also be inside the floor 1
footprint, and is rejected outright when floor 1 has no walls. -/
def isPointWithinBounds (s : FPState) (p : Point2D) : Bool :=
  let withinP := withinPlot s.floorPlan.plotBounds p
  if 1 < s.currentFloor then
    match getFloor1Footprint s.floorPlan with
    | some fb => withinP && withinFootprint fb p
    | none => false
  else withinP

/-- addWall from part_001: validate both endpoints, then append a new wall to
the floor with the given level. The fresh id is passed in as a parameter in
place of the random generateId. -/
def addWall (s : FPState) (newId : String) (start endP : Point2D)
    (floorLevel : ℕ) : FPState :=
  if !(isPointWithinBounds s start) || !(isPointWithinBounds s endP) then s
  else
    let newWall : Wall :=
      ⟨newId, start, endP, s.wallHeight, s.wallThickness, [], [],
        s.wallMaterial, s.wallColor, "solid"⟩
    { s with
      floorPlan :=
        { s.floorPlan with
          floors := s.floorPlan.floors.map (fun floor =>
            if floor.level == floorLevel then
              { floor with walls := floor.walls ++ [newWall] }
            else floor) } }

/-- setCurrentFloor: the floor selection buttons of part_001. -/
def setCurrentFloor (s : FPState) (level : ℕ) : FPState :=
  { s with currentFloor := level }

/-- addFloor from part_001: refuse beyond 2 floors, otherwise append a fresh
floor numbered after the last and select it. -/
def addFloor (s : FPState) (newId : String) : FPState :=
  if 2 ≤ s.floorPlan.floors.length then s
  else
    let newFloor : Floor :=
      ⟨newId, s.floorPlan.floors.length + 1, 3, [], [], "#d1d5db", "concrete"⟩
    { s with
      floorPlan := { s.floorPlan with floors := s.floorPlan.floors ++ [newFloor] }
      currentFloor := newFloor.level }

/-- Sequential renumbering used by removeFloor: floor at index i gets
level i + 1. -/
def renumberFloors : ℕ → List Floor → List Floor
  | _, [] => []
  | i, f :: fs => { f with level := i + 1 } :: renumberFloors (i + 1) fs

/-- removeFloor from part_001: refuse to remove the last floor or floor 1;
otherwise drop the floor with the given level, renumber the rest
sequentially, and adjust the current floor. -/
def removeFloor (s : FPState) (floorLevel : ℕ) : FPState :=
  if s.floorPlan.floors.length ≤ 1 then s
  else if floorLevel == 1 then s
  else
    let newFloors :=
      renumberFloors 0 (s.floorPlan.floors.filter (fun f => f.level != floorLevel))
    let s1 := { s with floorPlan := { s.floorPlan with floors := newFloors } }
    if s.currentFloor == floorLevel then { s1 with currentFloor := 1 }
    else if floorLevel < s.currentFloor then
      { s1 with currentFloor := s.currentFloor - 1 }
    else s1

/-- Floor management operations of part_001. -/
inductive FloorOp where
  | addFloor (newId : String)
  | removeFloor (floorLevel : ℕ)

/-- Apply a single floor operation. -/
def applyFloorOp (s : FPState) : FloorOp → FPState
  | .addFloor newId => addFloor s newId
  | .removeFloor lvl => removeFloor s lvl

/-- Apply a sequence of floor operations from a state. -/
def applyFloorOps (s : FPState) (ops : List FloorOp) : FPState :=
  ops.foldl applyFloorOp s

/-- The floors are numbered consecutively from 1: the floor at index i has
level i + 1. -/
def consecutiveLevels (floors : List Floor) : Prop :=
  ∀ i, (h : i < floors.length) → floors[i].level = i + 1

/-- Invariant carried through floor operations: between one and two floors,
numbered consecutively from 1. -/
def floorsInvariant (s : FPState) : Prop :=
  s.floorPlan.floors.length ≤ 2 ∧ 1 ≤ s.floorPlan.floors.length ∧
    consecutiveLevels s.floorPlan.floors

/-- The window literal created by addWindow in part_001. -/
def newWindow (newId : String) : Window :=
  ⟨newId, 1 / 2, 12 / 10, 1, "rectangular", 9 / 10, "#8B4513"⟩

/-- The door literal created by addDoor in part_001. -/
def newDoor (newId : String) : Door :=
  ⟨newId, 1 / 2, 9 / 10, 21 / 10, "single", "#8B4513"⟩

/-- The clamp applied by updateWindowPosition and updateDoorPosition:
positions are kept between 0.1 and 0.9. -/
def clampPosition (newPosition : ℚ) : ℚ :=
  max (1 / 10) (min (9 / 10) newPosition)

/-- addWindow from part_001: append a default window to the matching wall of
the matching floor. -/
def addWindow (s : FPState) (newId wallId : String) (floorLevel : ℕ) : FPState :=
  { s with
    floorPlan :=
      { s.floorPlan with
        floors := s.floorPlan.floors.map (fun floor =>
          if floor.level == floorLevel then
            { floor with
              walls := floor.walls.map (fun wall =>
                if wall.id == wallId then
                  { wall with windows := wall.windows ++ [newWindow newId] }
                else wall) }
          else floor) } }

/-- addDoor from part_001: append a default door to the matching wall of the
matching floor. -/
def addDoor (s : FPState) (newId wallId : String) (floorLevel : ℕ) : FPState :=
  { s with
    floorPlan :=
      { s.floorPlan with
        floors := s.floorPlan.floors.map (fun floor =>
          if floor.level == floorLevel then
            { floor with
              walls := floor.walls.map (fun wall =>
                if wall.id == wallId then
                  { wall with doors := wall.doors ++ [newDoor newId] }
                else wall) }
          else floor) } }

/-- updateWindowPosition from part_001: store the clamped position on the
matching window. -/
def updateWindowPosition (s : FPState) (wallId windowId : String)
    (newPosition : ℚ) (floorLevel : ℕ) : FPState :=
  { s with
    floorPlan :=
      { s.floorPlan with
        floors := s.floorPlan.floors.map (fun floor =>
          if floor.level == floorLevel then
            { floor with
              walls := floor.walls.map (fun wall =>
                if wall.id == wallId then
                  { wall with
                    windows := wall.windows.map (fun window =>
                      if window.id == windowId then
                        { window with position := clampPosition newPosition }
                      else window) }
                else wall) }
          else floor) } }

/-- updateDoorPosition from part_001: store the clamped position on the
matching door. -/
def updateDoorPosition (s : FPState) (wallId doorId : String)
    (newPosition : ℚ) (floorLevel : ℕ) : FPState :=
  { s with
    floorPlan :=
      { s.floorPlan with
        floors := s.floorPlan.floors.map (fun floor =>
          if floor.level == floorLevel then
            { floor with
              walls := floor.walls.map (fun wall =>
                if wall.id == wallId then
                  { wall with
                    doors := wall.doors.map (fun door =>
                      if door.id == doorId then
                        { door with position := clampPosition newPosition }
                      else door) }
                else wall) }
          else floor) } }

/-- Operations of part_001 that create or move walls, windows and doors. -/
inductive OpeningOp where
  | addWall (newId : String) (start endP : Point2D)
  | setCurrentFloor (level : ℕ)
  | addFloor (newId : String)
  | removeFloor (floorLevel : ℕ)
  | addWindow (newId wallId : String) (floorLevel : ℕ)
  | addDoor (newId wallId : String) (floorLevel : ℕ)
  | updateWindowPosition (wallId windowId : String) (newPosition : ℚ) (floorLevel : ℕ)
  | updateDoorPosition (wallId doorId : String) (newPosition : ℚ) (floorLevel : ℕ)

/-- Apply one operation; walls are drawn on the currently selected floor as
the drawing surface does. -/
def applyOpeningOp (s : FPState) : OpeningOp → FPState
  | .addWall newId start endP => addWall s newId start endP s.currentFloor
  | .setCurrentFloor level => setCurrentFloor s level
  | .addFloor newId => addFloor s newId
  | .removeFloor floorLevel => removeFloor s floorLevel
  | .addWindow newId wallId floorLevel => addWindow s newId wallId floorLevel
  | .addDoor newId wallId floorLevel => addDoor s newId wallId floorLevel
  | .updateWindowPosition wallId windowId p floorLevel =>
      updateWindowPosition s wallId windowId p floorLevel
  | .updateDoorPosition wallId doorId p floorLevel =>
      updateDoorPosition s wallId doorId p floorLevel

/-- Apply a sequence of opening operations. -/
def applyOpeningOps (s : FPState) (ops : List OpeningOp) : FPState :=
  ops.foldl applyOpeningOp s

/-- Every window and door position of the wall lies in the closed unit
interval. -/
def wallOK (w : Wall) : Prop :=
  (∀ win ∈ w.windows, 0 ≤ win.position ∧ win.position ≤ 1) ∧
    (∀ d ∈ w.doors, 0 ≤ d.position ∧ d.position ≤ 1)

/-- Every wall of every floor satisfies wallOK. -/
def positionsInvariant (s : FPState) : Prop :=
  ∀ f ∈ s.floorPlan.floors, ∀ w ∈ f.walls, wallOK w

/-- Concrete wall produced by drawing one wall on floor 1 and adding one
window to it. -/
def demoWall : Wall :=
  ⟨"w1", ⟨0, 0⟩, ⟨0, 0⟩, 3, 15 / 100, [newWindow "win1"], [], "concrete",
    "#d1d5db", "solid"⟩

/-- Concrete floor 1 after the demo operations. -/
def demoFloor : Floor :=
  ⟨"1", 1, 3, [demoWall], [], "#d1d5db", "concrete"⟩

/-- Demo operation sequence: draw a wall on floor 1, then add a window. -/
def demoOps : List OpeningOp :=
  [.addWall "w1" ⟨0, 0⟩ ⟨0, 0⟩, .addWindow "win1" "w1" 1]

/-- Operations that draw walls, switch floors and add floors. The drawing
surface always draws on the currently selected floor. -/
inductive WallOp where
  | addWall (newId : String) (start endP : Point2D)
  | setCurrentFloor (level : ℕ)
  | addFloor (newId : String)

/-- Apply one wall operation. -/
def applyWallOp (s : FPState) : WallOp → FPState
  | .addWall newId start endP => addWall s newId start endP s.currentFloor
  | .setCurrentFloor level => setCurrentFloor s level
  | .addFloor newId => addFloor s newId

/-- Apply a sequence of wall operations. -/
def applyWallOps (s : FPState) (ops : List WallOp) : FPState :=
  ops.foldl applyWallOp s

/-- The per-floor update performed by an accepted addWall. -/
def addWallFloorUpdate (newWall : Wall) (floorLevel : ℕ) (floor : Floor) : Floor :=
  if floor.level == floorLevel then
    { floor with walls := floor.walls ++ [newWall] }
  else floor

/-- Every wall on a floor above level 1 lies within the plot rectangle and
within the floor 1 footprint bounding box. -/
def upperFloorsWithinFootprint (s : FPState) : Prop :=
  ∀ f ∈ s.floorPlan.floors, 1 < f.level → ∀ w ∈ f.walls,
    withinPlot s.floorPlan.plotBounds w.start = true ∧
    withinPlot s.floorPlan.plotBounds w.endP = true ∧
    ∃ fb, getFloor1Footprint s.floorPlan = some fb ∧
      withinFootprint fb w.start = true ∧ withinFootprint fb w.endP = true

/-- A wall segment of the roof perimeter trace in part_001. -/
structure Seg where
  start : Point2D
  endP : Point2D
deriving DecidableEq

instance : Inhabited Seg := ⟨⟨default, default⟩⟩

/-- The coordinatewise tolerance test of the perimeter trace: both
coordinate differences under 0.1. -/
def near (p q : Point2D) : Bool :=
  (|p.x - q.x| < 1 / 10) && (|p.z - q.z| < 1 / 10)

/-- The inner for loop of the perimeter trace: scan the segments in order,
skip used ones, and return the first whose start or end matches the current
point together with its far endpoint. -/
def findConnection (segs : List Seg) (used : Finset ℕ) (current : Point2D) :
    Option (ℕ × Point2D) :=
  (List.range segs.length).findSome? (fun i =>
    if i ∈ used then none
    else
      let seg := segs.getD i default
      if near seg.start current then some (i, seg.endP)
      else if near seg.endP current then some (i, seg.start)
      else none)

/-- The while loop of the perimeter trace, with explicit fuel. Each pass
either exits or marks one more segment used and appends its far endpoint. -/
def traceLoop (segs : List Seg) : ℕ → Finset ℕ → Point2D → List Point2D → List Point2D
  | 0, _, _, acc => acc
  | fuel + 1, used, current, acc =>
      if used.card < segs.length then
        match findConnection segs used current with
        | some (i, p) => traceLoop segs fuel (insert i used) p (acc ++ [p])
        | none => acc
      else acc

/-- The ordered perimeter point list of part_001: seed with the first
segment, then run the matching loop. Fuel equal to the number of segments is
enough, as the fuel irrelevance theorem shows. -/
def tracePerimeter (segs : List Seg) : List Point2D :=
  match segs with
  | [] => []
  | s0 :: _ => traceLoop segs segs.length {0} s0.endP [s0.start, s0.endP]

lemma foldl_add_map_sum {α : Type} (f : α → ℚ) :
    ∀ (l : List α) (c : ℚ), l.foldl (fun s w => s + f w) c = c + (l.map f).sum := by
  intro l
  induction l with
  | nil => intro c; simp
  | cons a l ih =>
      intro c
      simp [List.foldl_cons, ih, add_assoc]

lemma foldl_range_add_sum (g : ℕ → ℚ) :
    ∀ (n : ℕ) (c : ℚ),
      (List.range n).foldl (fun a i => a + g i) c = c + ∑ i ∈ Finset.range n, g i := by
  intro n
  induction n with
  | zero => intro c; simp
  | succ n ih =>
      intro c
      rw [List.range_succ, List.foldl_append, ih, Finset.sum_range_succ]
      simp [add_assoc]

/-- C1: for every list of walls and every non-negative roof area,
estimateMaterials is the flat multiply-accumulate model over the rate table:
totalWallArea is the sum of length times height over the walls,
hollowblock_count is the ceiling of totalWallArea over the block size,
cement_bags is the ceiling of totalWallArea times the cement rate,
rebar_cost is the sum of wall lengths times 2 times the rebar price,
labor_cost is totalWallArea times the labor rate, material_cost is block cost
plus cement cost plus rebar_cost plus roof area times the roof price, and
total_cost is the rounding of material_cost plus labor_cost. -/
theorem estimateMaterials_spec (walls : List EstWall) (roofArea : ℚ) (config : Rates)
    (hroof : 0 ≤ roofArea) :
    (estimateMaterials walls roofArea config).totalWallArea
        = (walls.map (fun w => w.length * w.height)).sum ∧
    (estimateMaterials walls roofArea config).hollowblock_count
        = Int.ceil ((estimateMaterials walls roofArea config).totalWallArea
            / config.hollowblock_size_sqm) ∧
    (estimateMaterials walls roofArea config).cement_bags
        = Int.ceil ((estimateMaterials walls roofArea config).totalWallArea
            * config.cement_bag_per_sqm) ∧
    (estimateMaterials walls roofArea config).rebar_cost
        = (walls.map (fun w => w.length)).sum * 2 * config.rebar_price_per_kg ∧
    (estimateMaterials walls roofArea config).labor_cost
        = (estimateMaterials walls roofArea config).totalWallArea * config.labor_per_sqm ∧
    (estimateMaterials walls roofArea config).material_cost
        = ((estimateMaterials walls roofArea config).hollowblock_count : ℚ)
              * config.hollowblock_per_piece
          + ((estimateMaterials walls roofArea config).cement_bags : ℚ)
              * config.cement_price_per_bag
          + (estimateMaterials walls roofArea config).rebar_cost
          + roofArea * config.roof_price_per_sqm ∧
    (estimateMaterials walls roofArea config).total_cost
        = jsRound ((estimateMaterials walls roofArea config).material_cost
            + (estimateMaterials walls roofArea config).labor_cost) := by
  refine ⟨?_, ?_, ?_, ?_, ?_, ?_, ?_⟩ <;>
    simp only [estimateMaterials, wallArea, foldl_add_map_sum] <;>
    ring

/-- Witness for C1 at a concrete two-wall input with roof area 10. -/
theorem estimateMaterials_spec_witness :
    (0 : ℚ) ≤ 10 ∧
    (estimateMaterials [⟨4, 3⟩, ⟨2, 3⟩] 10 rates).totalWallArea
      = (([⟨4, 3⟩, ⟨2, 3⟩] : List EstWall).map (fun w => w.length * w.height)).sum :=
  ⟨by norm_num, (estimateMaterials_spec [⟨4, 3⟩, ⟨2, 3⟩] 10 rates (by norm_num)).1⟩

/-- C2: roofAreaFromBounds is the closed-form two-slope gabled formula on
non-null bounds, and returns 0 on null bounds. -/
theorem roofAreaFromBounds_spec :
    (∀ (b : RoofBounds) (pitch overhang : ℝ),
      roofAreaFromBounds (some b) pitch overhang =
        (max 0.001 |b.maxX - b.minX| + 2 * overhang) *
          (max 0.001 |b.maxZ - b.minZ| + 2 * overhang) /
            Real.cos (pitch * Real.pi / 180)) ∧
    (∀ pitch overhang : ℝ, roofAreaFromBounds none pitch overhang = 0) := by
  constructor
  · intro b pitch overhang
    simp only [roofAreaFromBounds]
    ring
  · intro pitch overhang
    rfl

/-- C5: calculatePolygonArea implements the shoelace formula: for at least 3
points it is half the absolute value of the cyclic determinant sum, and for
fewer than 3 points it is 0. -/
theorem calculatePolygonArea_spec (points : List Point2D) :
    (3 ≤ points.length →
      calculatePolygonArea points =
        |∑ i ∈ Finset.range points.length,
            ((points.getD i default).x
                * (points.getD ((i + 1) % points.length) default).z
              - (points.getD ((i + 1) % points.length) default).x
                * (points.getD i default).z)| / 2) ∧
    (points.length < 3 → calculatePolygonArea points = 0) := by
  constructor
  · intro h3
    have hcond : ¬ points.length < 3 := not_lt.mpr h3
    simp only [calculatePolygonArea, if_neg hcond]
    have hfun :
        (fun (a : ℚ) (i : ℕ) =>
            a + (points.getD i default).x
                  * (points.getD ((i + 1) % points.length) default).z
              - (points.getD ((i + 1) % points.length) default).x
                  * (points.getD i default).z)
          = (fun (a : ℚ) (i : ℕ) =>
              a + ((points.getD i default).x
                      * (points.getD ((i + 1) % points.length) default).z
                - (points.getD ((i + 1) % points.length) default).x
                      * (points.getD i default).z)) := by
      funext a i
      ring
    rw [hfun, foldl_range_add_sum]
    rw [zero_add]
  · intro h3
    simp only [calculatePolygonArea, if_pos h3]

/-- Witness for C5 at the concrete triangle (0,0), (1,0), (0,1). -/
theorem calculatePolygonArea_spec_witness :
    calculatePolygonArea [⟨0, 0⟩, ⟨1, 0⟩, ⟨0, 1⟩] =
      |∑ i ∈ Finset.range ([⟨0, 0⟩, ⟨1, 0⟩, ⟨0, 1⟩] : List Point2D).length,
          ((([⟨0, 0⟩, ⟨1, 0⟩, ⟨0, 1⟩] : List Point2D).getD i default).x
              * (([⟨0, 0⟩, ⟨1, 0⟩, ⟨0, 1⟩] : List Point2D).getD
                  ((i + 1) % ([⟨0, 0⟩, ⟨1, 0⟩, ⟨0, 1⟩] : List Point2D).length) default).z
            - (([⟨0, 0⟩, ⟨1, 0⟩, ⟨0, 1⟩] : List Point2D).getD
                  ((i + 1) % ([⟨0, 0⟩, ⟨1, 0⟩, ⟨0, 1⟩] : List Point2D).length) default).x
              * (([⟨0, 0⟩, ⟨1, 0⟩, ⟨0, 1⟩] : List Point2D).getD i default).z)| / 2 :=
  (calculatePolygonArea_spec [⟨0, 0⟩, ⟨1, 0⟩, ⟨0, 1⟩]).1 (by decide)

/-- C10: for every value and positive grid size, snapToGrid lands on an
integer multiple of the grid size and is idempotent. -/
theorem snapToGrid_spec (v g : ℚ) (hg : 0 < g) :
    (∃ k : ℤ, snapToGrid v g = (k : ℚ) * g) ∧
    snapToGrid (snapToGrid v g) g = snapToGrid v g := by
  constructor
  · exact ⟨jsRound (v / g), rfl⟩
  · have hg0 : g ≠ 0 := ne_of_gt hg
    simp only [snapToGrid, jsRound]
    rw [mul_div_cancel_right₀ _ hg0]
    norm_num

/-- Witness for C10 at value 3/10 and grid size 1/2. -/
theorem snapToGrid_spec_witness :
    (0 : ℚ) < 1 / 2 ∧
    ((∃ k : ℤ, snapToGrid (3 / 10) (1 / 2) = (k : ℚ) * (1 / 2)) ∧
      snapToGrid (snapToGrid (3 / 10) (1 / 2)) (1 / 2) = snapToGrid (3 / 10) (1 / 2)) :=
  ⟨by norm_num, snapToGrid_spec (3 / 10) (1 / 2) (by norm_num)⟩

lemma handlePlotResize_preserves_cap (s : FPState) (d : Dimension) (v : ℚ)
    (h : plotArea s ≤ maxPlotArea) :
    plotArea (handlePlotResize s d v) ≤ maxPlotArea := by
  by_cases hc :
      (setDimension s.floorPlan.plotBounds d v).width *
          (setDimension s.floorPlan.plotBounds d v).depth ≤ maxPlotArea
  · simpa [handlePlotResize, hc, plotArea] using hc
  · simpa [handlePlotResize, hc] using h

lemma applyResizes_preserves_cap (ops : List (Dimension × ℚ)) :
    ∀ s : FPState, plotArea s ≤ maxPlotArea →
      plotArea (applyResizes s ops) ≤ maxPlotArea := by
  induction ops with
  | nil => intro s h; simpa [applyResizes] using h
  | cons op ops ih =>
      intro s h
      simpa [applyResizes] using
        ih (handlePlotResize s op.1 op.2) (handlePlotResize_preserves_cap s op.1 op.2 h)

/-- C3: starting from the initial 20 m by 10 m plot, after every sequence of
handlePlotResize operations the plot area never exceeds the 200 sqm cap, and
a resize whose resulting area would exceed the cap leaves the state
unchanged. -/
theorem plotResize_cap_invariant :
    (∀ ops : List (Dimension × ℚ), plotArea (applyResizes initState ops) ≤ maxPlotArea) ∧
    (∀ (s : FPState) (d : Dimension) (v : ℚ),
      maxPlotArea <
          (setDimension s.floorPlan.plotBounds d v).width *
            (setDimension s.floorPlan.plotBounds d v).depth →
        handlePlotResize s d v = s) := by
  constructor
  · intro ops
    apply applyResizes_preserves_cap
    norm_num [plotArea, initState, initialFloorPlan, maxPlotArea]
  · intro s d v h
    unfold handlePlotResize
    rw [if_neg (not_le.mpr h)]

/-- Witness for C3: resizing the initial plot to width 100 would give
1000 sqm, so the resize is rejected and the state is unchanged. -/
theorem plotResize_cap_invariant_witness :
    maxPlotArea <
        (setDimension initState.floorPlan.plotBounds Dimension.width 100).width *
          (setDimension initState.floorPlan.plotBounds Dimension.width 100).depth ∧
    handlePlotResize initState Dimension.width 100 = initState :=
  ⟨by norm_num [setDimension, initState, initialFloorPlan, maxPlotArea],
    plotResize_cap_invariant.2 initState Dimension.width 100
      (by norm_num [setDimension, initState, initialFloorPlan, maxPlotArea])⟩

lemma isPointWithinBounds_plot (s : FPState) (p : Point2D)
    (h : isPointWithinBounds s p = true) :
    withinPlot s.floorPlan.plotBounds p = true := by
  unfold isPointWithinBounds at h
  by_cases hc : 1 < s.currentFloor
  · rw [if_pos hc] at h
    cases hfp : getFloor1Footprint s.floorPlan with
    | none => rw [hfp] at h; simp at h
    | some fb =>
        rw [hfp] at h
        exact (Bool.and_eq_true _ _ |>.mp h).1
  · rwa [if_neg hc] at h

lemma addWall_of_reject (s : FPState) (newId : String) (start endP : Point2D)
    (floorLevel : ℕ)
    (h : ¬(isPointWithinBounds s start = true ∧ isPointWithinBounds s endP = true)) :
    addWall s newId start endP floorLevel = s := by
  unfold addWall
  have hcond : (!(isPointWithinBounds s start) || !(isPointWithinBounds s endP)) = true := by
    cases hs : isPointWithinBounds s start with
    | false => simp [hs]
    | true =>
        cases he : isPointWithinBounds s endP with
        | false => simp [he]
        | true => exact absurd ⟨hs, he⟩ h
  rw [if_pos hcond]

/-- C6: addWall changes the state only when both endpoints lie within the
plot rectangle, and when either endpoint lies outside the plot rectangle
the whole floor plan state is left unchanged. -/
theorem addWall_plot_atomicity :
    (∀ (s : FPState) (newId : String) (start endP : Point2D) (floorLevel : ℕ),
      addWall s newId start endP floorLevel ≠ s →
        withinPlot s.floorPlan.plotBounds start = true ∧
          withinPlot s.floorPlan.plotBounds endP = true) ∧
    (∀ (s : FPState) (newId : String) (start endP : Point2D) (floorLevel : ℕ),
      withinPlot s.floorPlan.plotBounds start = false ∨
          withinPlot s.floorPlan.plotBounds endP = false →
        addWall s newId start endP floorLevel = s) := by
  have hrej : ∀ (s : FPState) (newId : String) (start endP : Point2D) (floorLevel : ℕ),
      withinPlot s.floorPlan.plotBounds start = false ∨
          withinPlot s.floorPlan.plotBounds endP = false →
        addWall s newId start endP floorLevel = s := by
    intro s newId start endP floorLevel h
    apply addWall_of_reject
    rintro ⟨hs, he⟩
    rcases h with h | h
    · rw [isPointWithinBounds_plot s start hs] at h; cases h
    · rw [isPointWithinBounds_plot s endP he] at h; cases h
  constructor
  · intro s newId start endP floorLevel hne
    cases hs : withinPlot s.floorPlan.plotBounds start with
    | false => exact absurd (hrej s newId start endP floorLevel (Or.inl hs)) hne
    | true =>
        cases he : withinPlot s.floorPlan.plotBounds endP with
        | false => exact absurd (hrej s newId start endP floorLevel (Or.inr he)) hne
        | true => exact ⟨rfl, rfl⟩
  · exact hrej

/-- Witness for C6: a wall with start point (100, 0), far outside the
initial 20 by 10 plot, is rejected and the state is unchanged. -/
theorem addWall_plot_atomicity_witness :
    withinPlot initState.floorPlan.plotBounds ⟨100, 0⟩ = false ∧
    addWall initState "w1" ⟨100, 0⟩ ⟨0, 0⟩ 1 = initState := by
  have hout : withinPlot initState.floorPlan.plotBounds ⟨100, 0⟩ = false := by
    norm_num [withinPlot, initState, initialFloorPlan]
  exact ⟨hout, addWall_plot_atomicity.2 initState "w1" ⟨100, 0⟩ ⟨0, 0⟩ 1 (Or.inl hout)⟩

lemma renumberFloors_length : ∀ (k : ℕ) (l : List Floor),
    (renumberFloors k l).length = l.length
  | _, [] => rfl
  | k, _ :: fs => by
      simp [renumberFloors, renumberFloors_length (k + 1) fs]

lemma renumberFloors_level (k : ℕ) (l : List Floor) :
    ∀ (i : ℕ) (h : i < (renumberFloors k l).length),
      (renumberFloors k l)[i].level = k + i + 1 := by
  induction l generalizing k with
  | nil => intro i h; simp [renumberFloors] at h
  | cons f fs ih =>
      intro i h
      cases i with
      | zero => simp [renumberFloors]
      | succ i =>
          have hb : i < (renumberFloors (k + 1) fs).length := by
            simpa [renumberFloors] using h
          simp only [renumberFloors, List.getElem_cons_succ]
          rw [ih (k + 1) i hb]
          omega

lemma consecutiveLevels_renumber (l : List Floor) :
    consecutiveLevels (renumberFloors 0 l) := by
  intro i h
  rw [renumberFloors_level 0 l i h]
  omega

lemma removeFloor_floors_cases (s : FPState) (lvl : ℕ) :
    (removeFloor s lvl).floorPlan.floors = s.floorPlan.floors ∨
    (¬ s.floorPlan.floors.length ≤ 1 ∧ lvl ≠ 1 ∧
      (removeFloor s lvl).floorPlan.floors =
        renumberFloors 0 (s.floorPlan.floors.filter (fun f => f.level != lvl))) := by
  by_cases h1 : s.floorPlan.floors.length ≤ 1
  · left
    simp [removeFloor, h1]
  · by_cases h2 : lvl = 1
    · left
      simp [removeFloor, h1, h2]
    · right
      refine ⟨h1, h2, ?_⟩
      simp only [removeFloor, if_neg h1]
      rw [if_neg (by simpa using h2)]
      split
      · rfl
      · split
        · rfl
        · rfl

lemma addFloor_preserves_floorsInvariant (s : FPState) (newId : String)
    (h : floorsInvariant s) : floorsInvariant (addFloor s newId) := by
  obtain ⟨h2, h1, hc⟩ := h
  by_cases hlen : 2 ≤ s.floorPlan.floors.length
  · simpa [addFloor, hlen] using ⟨h2, h1, hc⟩
  · have hlt : s.floorPlan.floors.length ≤ 1 := by omega
    refine ⟨?_, ?_, ?_⟩ <;> simp only [addFloor, if_neg hlen]
    · simp
      omega
    · simp
    · intro i hi
      simp only [List.length_append, List.length_cons, List.length_nil] at hi
      by_cases hile : i < s.floorPlan.floors.length
      · rw [List.getElem_append_left hile]
        exact hc i hile
      · have hieq : i = s.floorPlan.floors.length := by omega
        subst hieq
        rw [List.getElem_append_right (le_refl _)]
        simp

lemma removeFloor_preserves_floorsInvariant (s : FPState) (lvl : ℕ)
    (h : floorsInvariant s) : floorsInvariant (removeFloor s lvl) := by
  obtain ⟨h2, h1, hc⟩ := h
  rcases removeFloor_floors_cases s lvl with heq | ⟨hlen, hne1, heq⟩
  · rw [floorsInvariant, heq]
    exact ⟨h2, h1, hc⟩
  · rw [floorsInvariant, heq]
    have hfl : s.floorPlan.floors.filter (fun f => f.level != lvl) ≠ [] := by
      have h0 : 0 < s.floorPlan.floors.length := by omega
      have hmem : s.floorPlan.floors[0] ∈
          s.floorPlan.floors.filter (fun f => f.level != lvl) := by
        rw [List.mem_filter]
        refine ⟨List.getElem_mem h0, ?_⟩
        have := hc 0 h0
        simp only [this]
        simpa using fun habs => hne1 habs.symm
      exact List.ne_nil_of_mem hmem
    refine ⟨?_, ?_, consecutiveLevels_renumber _⟩
    · rw [renumberFloors_length]
      calc (s.floorPlan.floors.filter (fun f => f.level != lvl)).length
          ≤ s.floorPlan.floors.length := List.length_filter_le _ _
        _ ≤ 2 := h2
    · rw [renumberFloors_length]
      exact List.length_pos.mpr hfl

lemma floorsInvariant_init : floorsInvariant initState := by
  refine ⟨by simp [initState, initialFloorPlan], by simp [initState, initialFloorPlan], ?_⟩
  intro i h
  have hi0 : i = 0 := by
    simp [initState, initialFloorPlan] at h
    omega
  subst hi0
  rfl

lemma applyFloorOps_preserves_floorsInvariant (ops : List FloorOp) :
    ∀ s : FPState, floorsInvariant s → floorsInvariant (applyFloorOps s ops) := by
  induction ops with
  | nil => intro s h; simpa [applyFloorOps] using h
  | cons op ops ih =>
      intro s h
      have hstep : floorsInvariant (applyFloorOp s op) := by
        cases op with
        | addFloor newId => exact addFloor_preserves_floorsInvariant s newId h
        | removeFloor lvl => exact removeFloor_preserves_floorsInvariant s lvl h
      simpa [applyFloorOps] using ih (applyFloorOp s op) hstep

/-- C8: from the initial single-floor plan, every sequence of addFloor and
removeFloor operations keeps at most 2 floors; addFloor is a no-op at 2
floors; removeFloor refuses to remove the last floor and floor 1; and after
a removeFloor the floors are numbered consecutively from 1. -/
theorem floors_two_level_spec :
    (∀ ops : List FloorOp, (applyFloorOps initState ops).floorPlan.floors.length ≤ 2) ∧
    (∀ (s : FPState) (newId : String),
      2 ≤ s.floorPlan.floors.length → addFloor s newId = s) ∧
    (∀ (s : FPState) (lvl : ℕ),
      s.floorPlan.floors.length ≤ 1 → removeFloor s lvl = s) ∧
    (∀ s : FPState, removeFloor s 1 = s) ∧
    (∀ (ops : List FloorOp) (lvl : ℕ),
      consecutiveLevels (removeFloor (applyFloorOps initState ops) lvl).floorPlan.floors ∧
      1 ≤ (removeFloor (applyFloorOps initState ops) lvl).floorPlan.floors.length) := by
  refine ⟨?_, ?_, ?_, ?_, ?_⟩
  · intro ops
    exact (applyFloorOps_preserves_floorsInvariant ops initState floorsInvariant_init).1
  · intro s newId h
    simp [addFloor, h]
  · intro s lvl h
    simp [removeFloor, h]
  · intro s
    by_cases h : s.floorPlan.floors.length ≤ 1
    · simp [removeFloor, h]
    · simp [removeFloor, h]
  · intro ops lvl
    have hinv := applyFloorOps_preserves_floorsInvariant ops initState floorsInvariant_init
    have hres := removeFloor_preserves_floorsInvariant (applyFloorOps initState ops) lvl hinv
    exact ⟨hres.2.2, hres.2.1⟩

/-- Witness for C8: after adding a second floor, a third addFloor is a no-op,
and removing a fictitious floor from the initial single-floor plan is a
no-op. -/
theorem floors_two_level_spec_witness :
    (2 ≤ (addFloor initState "2").floorPlan.floors.length →
      addFloor (addFloor initState "2") "3" = addFloor initState "2") ∧
    (initState.floorPlan.floors.length ≤ 1 → removeFloor initState 2 = initState) :=
  ⟨floors_two_level_spec.2.1 (addFloor initState "2") "3",
    floors_two_level_spec.2.2.1 initState 2⟩

lemma clampPosition_bounds (p : ℚ) :
    1 / 10 ≤ clampPosition p ∧ clampPosition p ≤ 9 / 10 := by
  constructor
  · exact le_max_left _ _
  · apply max_le
    · norm_num
    · exact min_le_left _ _

lemma newWindow_ok (newId : String) :
    ∀ win ∈ [newWindow newId], 0 ≤ win.position ∧ win.position ≤ 1 := by
  intro win hwin
  rw [List.mem_singleton] at hwin
  subst hwin
  constructor <;> norm_num [newWindow]

lemma newDoor_ok (newId : String) :
    ∀ d ∈ [newDoor newId], 0 ≤ d.position ∧ d.position ≤ 1 := by
  intro d hd
  rw [List.mem_singleton] at hd
  subst hd
  constructor <;> norm_num [newDoor]

lemma floors_map_ok (floors : List Floor) (g : Floor → Floor)
    (hg : ∀ f ∈ floors, (∀ w ∈ f.walls, wallOK w) → ∀ w ∈ (g f).walls, wallOK w)
    (h : ∀ f ∈ floors, ∀ w ∈ f.walls, wallOK w) :
    ∀ f ∈ floors.map g, ∀ w ∈ f.walls, wallOK w := by
  intro f hf
  rcases List.mem_map.mp hf with ⟨f0, hf0, rfl⟩
  exact hg f0 hf0 (h f0 hf0)

lemma walls_map_ok (walls : List Wall) (u : Wall → Wall)
    (hu : ∀ w ∈ walls, wallOK w → wallOK (u w))
    (h : ∀ w ∈ walls, wallOK w) :
    ∀ w ∈ walls.map u, wallOK w := by
  intro w hw
  rcases List.mem_map.mp hw with ⟨w0, hw0, rfl⟩
  exact hu w0 hw0 (h w0 hw0)

lemma renumberFloors_mem_walls : ∀ (k : ℕ) (l : List Floor) (f : Floor),
    f ∈ renumberFloors k l → ∃ f0 ∈ l, f.walls = f0.walls := by
  intro k l
  induction l generalizing k with
  | nil => intro f hf; simp [renumberFloors] at hf
  | cons f0 fs ih =>
      intro f hf
      simp only [renumberFloors, List.mem_cons] at hf
      rcases hf with hf | hf
      · exact ⟨f0, List.mem_cons_self _ _, by rw [hf]⟩
      · rcases ih (k + 1) f hf with ⟨f1, hf1, hw⟩
        exact ⟨f1, List.mem_cons_of_mem _ hf1, hw⟩

lemma applyOpeningOp_preserves_positions (s : FPState) (op : OpeningOp)
    (h : positionsInvariant s) : positionsInvariant (applyOpeningOp s op) := by
  cases op with
  | addWall newId start endP =>
      show positionsInvariant (addWall s newId start endP s.currentFloor)
      unfold addWall
      by_cases hrej :
          (!(isPointWithinBounds s start) || !(isPointWithinBounds s endP)) = true
      · rw [if_pos hrej]; exact h
      · rw [if_neg hrej]
        intro f hf
        simp only at hf
        refine floors_map_ok s.floorPlan.floors _ ?_ h f hf
        intro f0 _ hws
        by_cases hlev : (f0.level == s.currentFloor) = true
        · simp only [if_pos hlev]
          intro w hw
          simp only [List.mem_append, List.mem_singleton] at hw
          rcases hw with hw | hw
          · exact hws w hw
          · subst hw
            exact ⟨by simp, by simp⟩
        · simp only [if_neg hlev]
          exact hws
  | setCurrentFloor level =>
      exact h
  | addFloor newId =>
      show positionsInvariant (addFloor s newId)
      unfold addFloor
      by_cases hlen : 2 ≤ s.floorPlan.floors.length
      · rw [if_pos hlen]; exact h
      · rw [if_neg hlen]
        intro f hf
        simp only [List.mem_append, List.mem_singleton] at hf
        rcases hf with hf | hf
        · exact h f hf
        · subst hf
          intro w hw
          simp at hw
  | removeFloor floorLevel =>
      show positionsInvariant (removeFloor s floorLevel)
      rcases removeFloor_floors_cases s floorLevel with heq | ⟨_, _, heq⟩
      · intro f hf
        rw [heq] at hf
        exact h f hf
      · intro f hf
        rw [heq] at hf
        rcases renumberFloors_mem_walls 0 _ f hf with ⟨f0, hf0, hw⟩
        rw [hw]
        exact h f0 (List.mem_filter.mp hf0).1
  | addWindow newId wallId floorLevel =>
      show positionsInvariant (addWindow s newId wallId floorLevel)
      unfold addWindow
      intro f hf
      simp only at hf
      refine floors_map_ok s.floorPlan.floors _ ?_ h f hf
      intro f0 _ hws
      by_cases hlev : (f0.level == floorLevel) = true
      · simp only [if_pos hlev]
        refine walls_map_ok f0.walls _ ?_ hws
        intro w0 _ hok
        by_cases hid : (w0.id == wallId) = true
        · simp only [if_pos hid]
          refine ⟨?_, hok.2⟩
          intro win hwin
          simp only [List.mem_append] at hwin
          rcases hwin with hwin | hwin
          · exact hok.1 win hwin
          · exact newWindow_ok newId win hwin
        · simp only [if_neg hid]
          exact hok
      · simp only [if_neg hlev]
        exact hws
  | addDoor newId wallId floorLevel =>
      show positionsInvariant (addDoor s newId wallId floorLevel)
      unfold addDoor
      intro f hf
      simp only at hf
      refine floors_map_ok s.floorPlan.floors _ ?_ h f hf
      intro f0 _ hws
      by_cases hlev : (f0.level == floorLevel) = true
      · simp only [if_pos hlev]
        refine walls_map_ok f0.walls _ ?_ hws
        intro w0 _ hok
        by_cases hid : (w0.id == wallId) = true
        · simp only [if_pos hid]
          refine ⟨hok.1, ?_⟩
          intro d hd
          simp only [List.mem_append] at hd
          rcases hd with hd | hd
          · exact hok.2 d hd
          · exact newDoor_ok newId d hd
        · simp only [if_neg hid]
          exact hok
      · simp only [if_neg hlev]
        exact hws
  | updateWindowPosition wallId windowId p floorLevel =>
      show positionsInvariant (updateWindowPosition s wallId windowId p floorLevel)
      unfold updateWindowPosition
      intro f hf
      simp only at hf
      refine floors_map_ok s.floorPlan.floors _ ?_ h f hf
      intro f0 _ hws
      by_cases hlev : (f0.level == floorLevel) = true
      · simp only [if_pos hlev]
        refine walls_map_ok f0.walls _ ?_ hws
        intro w0 _ hok
        by_cases hid : (w0.id == wallId) = true
        · simp only [if_pos hid]
          refine ⟨?_, hok.2⟩
          intro win hwin
          rcases List.mem_map.mp hwin with ⟨win0, hwin0, rfl⟩
          by_cases hwid : (win0.id == windowId) = true
          · simp only [if_pos hwid]
            have hb := clampPosition_bounds p
            constructor
            · calc (0 : ℚ) ≤ 1 / 10 := by norm_num
                _ ≤ clampPosition p := hb.1
            · calc clampPosition p ≤ 9 / 10 := hb.2
                _ ≤ 1 := by norm_num
          · simp only [if_neg hwid]
            exact hok.1 win0 hwin0
        · simp only [if_neg hid]
          exact hok
      · simp only [if_neg hlev]
        exact hws
  | updateDoorPosition wallId doorId p floorLevel =>
      show positionsInvariant (updateDoorPosition s wallId doorId p floorLevel)
      unfold updateDoorPosition
      intro f hf
      simp only at hf
      refine floors_map_ok s.floorPlan.floors _ ?_ h f hf
      intro f0 _ hws
      by_cases hlev : (f0.level == floorLevel) = true
      · simp only [if_pos hlev]
        refine walls_map_ok f0.walls _ ?_ hws
        intro w0 _ hok
        by_cases hid : (w0.id == wallId) = true
        · simp only [if_pos hid]
          refine ⟨hok.1, ?_⟩
          intro d hd
          rcases List.mem_map.mp hd with ⟨d0, hd0, rfl⟩
          by_cases hdid : (d0.id == doorId) = true
          · simp only [if_pos hdid]
            have hb := clampPosition_bounds p
            constructor
            · calc (0 : ℚ) ≤ 1 / 10 := by norm_num
                _ ≤ clampPosition p := hb.1
            · calc clampPosition p ≤ 9 / 10 := hb.2
                _ ≤ 1 := by norm_num
          · simp only [if_neg hdid]
            exact hok.2 d0 hd0
        · simp only [if_neg hid]
          exact hok
      · simp only [if_neg hlev]
        exact hws

lemma positionsInvariant_init : positionsInvariant initState := by
  intro f hf w hw
  simp only [initState, initialFloorPlan] at hf
  rw [List.mem_singleton] at hf
  subst hf
  simp at hw

lemma applyOpeningOps_preserves_positions (ops : List OpeningOp) :
    ∀ s : FPState, positionsInvariant s → positionsInvariant (applyOpeningOps s ops) := by
  induction ops with
  | nil => intro s h; simpa [applyOpeningOps] using h
  | cons op ops ih =>
      intro s h
      simpa [applyOpeningOps] using
        ih (applyOpeningOp s op) (applyOpeningOp_preserves_positions s op h)

/-- C7: windows and doors are created at fractional position one half,
position updates clamp into the interval from 0.1 to 0.9, and in every state
reachable by the wall, floor, window and door operations every window and
door position lies in the closed unit interval. -/
theorem openingPositions_spec :
    (∀ newId : String, (newWindow newId).position = 1 / 2) ∧
    (∀ newId : String, (newDoor newId).position = 1 / 2) ∧
    (∀ p : ℚ, 1 / 10 ≤ clampPosition p ∧ clampPosition p ≤ 9 / 10) ∧
    (∀ (ops : List OpeningOp) (f : Floor) (w : Wall),
      f ∈ (applyOpeningOps initState ops).floorPlan.floors → w ∈ f.walls →
        (∀ win ∈ w.windows, 0 ≤ win.position ∧ win.position ≤ 1) ∧
        (∀ d ∈ w.doors, 0 ≤ d.position ∧ d.position ≤ 1)) := by
  refine ⟨fun _ => rfl, fun _ => rfl, clampPosition_bounds, ?_⟩
  intro ops f w hf hw
  exact applyOpeningOps_preserves_positions ops initState positionsInvariant_init f hf w hw

/-- Witness for C7: the window created by the demo operations has its
position inside the unit interval. -/
theorem openingPositions_spec_witness :
    0 ≤ (newWindow "win1").position ∧ (newWindow "win1").position ≤ 1 := by
  have hfloors : (applyOpeningOps initState demoOps).floorPlan.floors = [demoFloor] := by
    norm_num [applyOpeningOps, demoOps, applyOpeningOp, addWall, addWindow,
      isPointWithinBounds, withinPlot, initState, initialFloorPlan, demoFloor,
      demoWall, List.foldl]
  have hf : demoFloor ∈ (applyOpeningOps initState demoOps).floorPlan.floors := by
    rw [hfloors]
    exact List.mem_singleton_self _
  have hw : demoWall ∈ demoFloor.walls := List.mem_singleton_self _
  have hwin : newWindow "win1" ∈ demoWall.windows := List.mem_singleton_self _
  exact (openingPositions_spec.2.2.2 demoOps demoFloor demoWall hf hw).1
    (newWindow "win1") hwin

lemma foldl_min_le (l : List ℚ) : ∀ a : ℚ, List.foldl min a l ≤ a := by
  induction l with
  | nil => intro a; exact le_refl a
  | cons x l ih =>
      intro a
      exact le_trans (ih (min a x)) (min_le_left a x)

lemma le_foldl_max (l : List ℚ) : ∀ a : ℚ, a ≤ List.foldl max a l := by
  induction l with
  | nil => intro a; exact le_refl a
  | cons x l ih =>
      intro a
      exact le_trans (le_max_left a x) (ih (max a x))

lemma listMin_append_le (xs ys : List ℚ) (h : xs ≠ []) :
    listMin (xs ++ ys) ≤ listMin xs := by
  obtain ⟨x, xs', rfl⟩ := List.exists_cons_of_ne_nil h
  show List.foldl min x (xs' ++ ys) ≤ List.foldl min x xs'
  rw [List.foldl_append]
  exact foldl_min_le ys _

lemma le_listMax_append (xs ys : List ℚ) (h : xs ≠ []) :
    listMax xs ≤ listMax (xs ++ ys) := by
  obtain ⟨x, xs', rfl⟩ := List.exists_cons_of_ne_nil h
  show List.foldl max x xs' ≤ List.foldl max x (xs' ++ ys)
  rw [List.foldl_append]
  exact le_foldl_max ys _

lemma withinFootprint_mono (fb fbp : Footprint) (p : Point2D)
    (h1 : fbp.minX ≤ fb.minX) (h2 : fb.maxX ≤ fbp.maxX)
    (h3 : fbp.minZ ≤ fb.minZ) (h4 : fb.maxZ ≤ fbp.maxZ)
    (h : withinFootprint fb p = true) : withinFootprint fbp p = true := by
  unfold withinFootprint at h ⊢
  simp only [Bool.and_eq_true, decide_eq_true_eq] at h ⊢
  obtain ⟨⟨⟨ha, hb⟩, hc⟩, hd⟩ := h
  exact ⟨⟨⟨le_trans h1 ha, le_trans hb h2⟩, le_trans h3 hc⟩, le_trans hd h4⟩

lemma ne_nil_of_isEmpty_false {α : Type} (l : List α) (h : l.isEmpty = false) :
    l ≠ [] := by
  cases l with
  | nil => simp at h
  | cons x l => simp

lemma getFloor1Footprint_some_elim (fp : FloorPlan) (fb : Footprint)
    (h : getFloor1Footprint fp = some fb) :
    ∃ floor1, fp.floors.find? (fun f => f.level == 1) = some floor1 ∧
      floor1.walls.isEmpty = false ∧ wallXs floor1.walls ≠ [] ∧
      fb = ⟨listMin (wallXs floor1.walls), listMax (wallXs floor1.walls),
            listMin (wallZs floor1.walls), listMax (wallZs floor1.walls)⟩ := by
  cases hfind : fp.floors.find? (fun f => f.level == 1) with
  | none => simp [getFloor1Footprint, hfind] at h
  | some floor1 =>
      cases hemp : floor1.walls.isEmpty with
      | true => simp [getFloor1Footprint, hfind, hemp] at h
      | false =>
          cases hxs : (wallXs floor1.walls).isEmpty with
          | true => simp [getFloor1Footprint, hfind, hemp, hxs] at h
          | false =>
              refine ⟨floor1, rfl, hemp, ne_nil_of_isEmpty_false _ hxs, ?_⟩
              simp only [getFloor1Footprint, hfind, hemp, hxs] at h
              simp at h
              exact h.symm

lemma getFloor1Footprint_congr (fp fpp : FloorPlan)
    (h : fpp.floors.find? (fun f => f.level == 1) =
      fp.floors.find? (fun f => f.level == 1)) :
    getFloor1Footprint fpp = getFloor1Footprint fp := by
  unfold getFloor1Footprint
  rw [h]

lemma addWallFloorUpdate_level (nw : Wall) (lvl : ℕ) (f : Floor) :
    (addWallFloorUpdate nw lvl f).level = f.level := by
  unfold addWallFloorUpdate
  split
  · rfl
  · rfl

lemma find?_level_one_map (floors : List Floor) (nw : Wall) (lvl : ℕ) :
    (floors.map (addWallFloorUpdate nw lvl)).find? (fun f => f.level == 1)
      = (floors.find? (fun f => f.level == 1)).map (addWallFloorUpdate nw lvl) := by
  rw [List.find?_map]
  have hpg : ((fun f : Floor => f.level == 1) ∘ addWallFloorUpdate nw lvl)
      = (fun f : Floor => f.level == 1) := by
    funext f
    simp [Function.comp, addWallFloorUpdate_level]
  rw [hpg]

lemma wallXs_append (walls : List Wall) (w : Wall) :
    wallXs (walls ++ [w]) = wallXs walls ++ [w.start.x, w.endP.x] := by
  simp [wallXs]

lemma wallZs_append (walls : List Wall) (w : Wall) :
    wallZs (walls ++ [w]) = wallZs walls ++ [w.start.z, w.endP.z] := by
  simp [wallZs]

lemma wallZs_ne_nil (walls : List Wall) (h : walls ≠ []) : wallZs walls ≠ [] := by
  obtain ⟨w, ws, rfl⟩ := List.exists_cons_of_ne_nil h
  simp [wallZs]

lemma footprint_map_ne_one (fp : FloorPlan) (nw : Wall) (lvl : ℕ) (hne : lvl ≠ 1) :
    getFloor1Footprint
        { fp with floors := fp.floors.map (addWallFloorUpdate nw lvl) }
      = getFloor1Footprint fp := by
  apply getFloor1Footprint_congr
  show (fp.floors.map (addWallFloorUpdate nw lvl)).find? (fun f => f.level == 1)
      = fp.floors.find? (fun f => f.level == 1)
  rw [find?_level_one_map]
  cases hfind : fp.floors.find? (fun f => f.level == 1) with
  | none => rfl
  | some floor1 =>
      have hlev : floor1.level = 1 := by simpa using List.find?_some hfind
      have hcond : (floor1.level == lvl) = false := by
        rw [hlev]
        exact beq_eq_false_iff_ne.mpr (Ne.symm hne)
      simp [addWallFloorUpdate, hcond]

lemma footprint_map_one_mono (fp : FloorPlan) (nw : Wall) (fb : Footprint)
    (hfb : getFloor1Footprint fp = some fb) :
    ∃ fbp, getFloor1Footprint
        { fp with floors := fp.floors.map (addWallFloorUpdate nw 1) } = some fbp ∧
      fbp.minX ≤ fb.minX ∧ fb.maxX ≤ fbp.maxX ∧
      fbp.minZ ≤ fb.minZ ∧ fb.maxZ ≤ fbp.maxZ := by
  obtain ⟨floor1, hfind, hemp, hxne, hfbeq⟩ := getFloor1Footprint_some_elim fp fb hfb
  have hlev : floor1.level = 1 := by simpa using List.find?_some hfind
  have hupd : addWallFloorUpdate nw 1 floor1 = { floor1 with walls := floor1.walls ++ [nw] } := by
    simp [addWallFloorUpdate, hlev]
  have hfindp : ({ fp with floors := fp.floors.map (addWallFloorUpdate nw 1) }
      : FloorPlan).floors.find? (fun f => f.level == 1)
      = some { floor1 with walls := floor1.walls ++ [nw] } := by
    show (fp.floors.map (addWallFloorUpdate nw 1)).find? (fun f => f.level == 1) = _
    rw [find?_level_one_map, hfind]
    simp [hupd]
  have hempp : (floor1.walls ++ [nw]).isEmpty = false := by
    cases floor1.walls <;> simp
  have hxspemp : (wallXs (floor1.walls ++ [nw])).isEmpty = false := by
    rw [wallXs_append]
    cases wallXs floor1.walls <;> simp
  refine ⟨⟨listMin (wallXs (floor1.walls ++ [nw])), listMax (wallXs (floor1.walls ++ [nw])),
      listMin (wallZs (floor1.walls ++ [nw])), listMax (wallZs (floor1.walls ++ [nw]))⟩,
    ?_, ?_, ?_, ?_, ?_⟩
  · simp only [getFloor1Footprint, hfindp, hempp, hxspemp]
    rfl
  · rw [hfbeq, wallXs_append]
    exact listMin_append_le _ _ hxne
  · rw [hfbeq, wallXs_append]
    exact le_listMax_append _ _ hxne
  · rw [hfbeq, wallZs_append]
    exact listMin_append_le _ _ (wallZs_ne_nil _ (ne_nil_of_isEmpty_false _ hemp))
  · rw [hfbeq, wallZs_append]
    exact le_listMax_append _ _ (wallZs_ne_nil _ (ne_nil_of_isEmpty_false _ hemp))

lemma addWall_floors_accepted (s : FPState) (newId : String) (st en : Point2D)
    (lvl : ℕ) (hst : isPointWithinBounds s st = true)
    (hen : isPointWithinBounds s en = true) :
    addWall s newId st en lvl =
      { s with
        floorPlan :=
          { s.floorPlan with
            floors := s.floorPlan.floors.map
              (addWallFloorUpdate
                ⟨newId, st, en, s.wallHeight, s.wallThickness, [], [],
                  s.wallMaterial, s.wallColor, "solid"⟩ lvl) } } := by
  unfold addWall
  rw [if_neg (by simp [hst, hen])]
  rfl

lemma isPointWithinBounds_upper (s : FPState) (p : Point2D)
    (hc : 1 < s.currentFloor) (h : isPointWithinBounds s p = true) :
    withinPlot s.floorPlan.plotBounds p = true ∧
      ∃ fb, getFloor1Footprint s.floorPlan = some fb ∧ withinFootprint fb p = true := by
  simp only [isPointWithinBounds, if_pos hc] at h
  cases hfp : getFloor1Footprint s.floorPlan with
  | none => rw [hfp] at h; simp at h
  | some fb =>
      rw [hfp] at h
      have := Bool.and_eq_true _ _ |>.mp h
      exact ⟨this.1, fb, rfl, this.2⟩

lemma upper_inv_after_accepted (s : FPState) (nw : Wall) (c : ℕ)
    (hupper : 1 < c →
      withinPlot s.floorPlan.plotBounds nw.start = true ∧
      withinPlot s.floorPlan.plotBounds nw.endP = true ∧
      ∃ fb, getFloor1Footprint s.floorPlan = some fb ∧
        withinFootprint fb nw.start = true ∧ withinFootprint fb nw.endP = true)
    (h : upperFloorsWithinFootprint s) :
    upperFloorsWithinFootprint
      { s with
        floorPlan :=
          { s.floorPlan with
            floors := s.floorPlan.floors.map (addWallFloorUpdate nw c) } } := by
  intro f hf hlev w hw
  rcases List.mem_map.mp hf with ⟨f0, hf0, rfl⟩
  rw [addWallFloorUpdate_level] at hlev
  by_cases hc1 : c = 1
  · -- the new wall goes to floor 1; the footprint can only grow
    have hne : (f0.level == c) = false := by
      rw [hc1]
      exact beq_eq_false_iff_ne.mpr (by omega)
    have hid : addWallFloorUpdate nw c f0 = f0 := by
      simp [addWallFloorUpdate, hne]
    rw [hid] at hw
    obtain ⟨hp1, hp2, fb, hfb, hw1, hw2⟩ := h f0 hf0 hlev w hw
    subst hc1
    obtain ⟨fbp, hfbp, hm1, hm2, hm3, hm4⟩ := footprint_map_one_mono s.floorPlan nw fb hfb
    exact ⟨hp1, hp2, fbp, hfbp,
      withinFootprint_mono fb fbp w.start hm1 hm2 hm3 hm4 hw1,
      withinFootprint_mono fb fbp w.endP hm1 hm2 hm3 hm4 hw2⟩
  · -- the new wall goes to a floor other than 1; the footprint is unchanged
    have hfpp : getFloor1Footprint
        ({ s with
          floorPlan :=
            { s.floorPlan with
              floors := s.floorPlan.floors.map (addWallFloorUpdate nw c) } }
          : FPState).floorPlan = getFloor1Footprint s.floorPlan :=
      footprint_map_ne_one s.floorPlan nw c hc1
    by_cases hmatch : (f0.level == c) = true
    · have hupd : addWallFloorUpdate nw c f0 = { f0 with walls := f0.walls ++ [nw] } := by
        simp [addWallFloorUpdate, hmatch]
      have hclev : 1 < c := by
        have : f0.level = c := by simpa using hmatch
        omega
      rw [hupd] at hw
      simp only [List.mem_append, List.mem_singleton] at hw
      rcases hw with hw | hw
      · obtain ⟨hp1, hp2, fb, hfb, hw1, hw2⟩ := h f0 hf0 hlev w hw
        exact ⟨hp1, hp2, fb, by rw [hfpp]; exact hfb, hw1, hw2⟩
      · subst hw
        obtain ⟨hp1, hp2, fb, hfb, hw1, hw2⟩ := hupper hclev
        exact ⟨hp1, hp2, fb, by rw [hfpp]; exact hfb, hw1, hw2⟩
    · have hid : addWallFloorUpdate nw c f0 = f0 := by
        simp [addWallFloorUpdate]
        intro habs
        rw [habs] at hmatch
        simp at hmatch
      rw [hid] at hw
      obtain ⟨hp1, hp2, fb, hfb, hw1, hw2⟩ := h f0 hf0 hlev w hw
      exact ⟨hp1, hp2, fb, by rw [hfpp]; exact hfb, hw1, hw2⟩

lemma addWall_preserves_footprint_inv (s : FPState) (newId : String)
    (st en : Point2D) (h : upperFloorsWithinFootprint s) :
    upperFloorsWithinFootprint (addWall s newId st en s.currentFloor) := by
  by_cases hok : isPointWithinBounds s st = true ∧ isPointWithinBounds s en = true
  · obtain ⟨hst, hen⟩ := hok
    rw [addWall_floors_accepted s newId st en s.currentFloor hst hen]
    apply upper_inv_after_accepted s _ s.currentFloor ?_ h
    intro hc
    obtain ⟨hps, fb, hfb, hfs⟩ := isPointWithinBounds_upper s st hc hst
    obtain ⟨hpe, fb2, hfb2, hfe⟩ := isPointWithinBounds_upper s en hc hen
    rw [hfb] at hfb2
    exact ⟨hps, hpe, fb, hfb, hfs, by rw [Option.some_inj.mp hfb2]; exact hfe⟩
  · rw [addWall_of_reject s newId st en s.currentFloor hok]
    exact h

lemma addFloor_preserves_footprint_inv (s : FPState) (newId : String)
    (h : upperFloorsWithinFootprint s) :
    upperFloorsWithinFootprint (addFloor s newId) := by
  by_cases hlen : 2 ≤ s.floorPlan.floors.length
  · have : addFloor s newId = s := by
      unfold addFloor
      rw [if_pos hlen]
    rw [this]
    exact h
  · unfold addFloor
    rw [if_neg hlen]
    intro f hf hlev w hw
    simp only [List.mem_append, List.mem_singleton] at hf
    rcases hf with hf | hf
    · obtain ⟨hp1, hp2, fb, hfb, hw1, hw2⟩ := h f hf hlev w hw
      obtain ⟨floor1, hfind, -, -, -⟩ := getFloor1Footprint_some_elim s.floorPlan fb hfb
      refine ⟨hp1, hp2, fb, ?_, hw1, hw2⟩
      rw [← hfb]
      apply getFloor1Footprint_congr
      show (s.floorPlan.floors ++
          [(⟨newId, s.floorPlan.floors.length + 1, 3, [], [], "#d1d5db", "concrete"⟩
            : Floor)]).find? (fun fl => fl.level == 1) = _
      rw [List.find?_append, hfind]
      rfl
    · subst hf
      simp at hw

lemma footprint_inv_init : upperFloorsWithinFootprint initState := by
  intro f hf hlev w hw
  simp only [initState, initialFloorPlan] at hf
  rw [List.mem_singleton] at hf
  subst hf
  simp at hlev

lemma applyWallOps_preserves_footprint_inv (ops : List WallOp) :
    ∀ s : FPState, upperFloorsWithinFootprint s →
      upperFloorsWithinFootprint (applyWallOps s ops) := by
  induction ops with
  | nil => intro s h; simpa [applyWallOps] using h
  | cons op ops ih =>
      intro s h
      have hstep : upperFloorsWithinFootprint (applyWallOp s op) := by
        cases op with
        | addWall newId st en => exact addWall_preserves_footprint_inv s newId st en h
        | setCurrentFloor level => exact h
        | addFloor newId => exact addFloor_preserves_footprint_inv s newId h
      simpa [applyWallOps] using ih (applyWallOp s op) hstep

lemma getFloor1Footprint_none_of_empty (s : FPState)
    (hemp : ∀ f ∈ s.floorPlan.floors, f.level = 1 → f.walls = []) :
    getFloor1Footprint s.floorPlan = none := by
  unfold getFloor1Footprint
  cases hfind : s.floorPlan.floors.find? (fun f => f.level == 1) with
  | none => rfl
  | some floor1 =>
      have hmem := List.mem_of_find?_eq_some hfind
      have hlev : floor1.level = 1 := by simpa using List.find?_some hfind
      have hwalls : floor1.walls = [] := hemp floor1 hmem hlev
      simp [hwalls]

lemma addWall_upper_empty_reject (s : FPState) (newId : String) (st en : Point2D)
    (hc : 1 < s.currentFloor)
    (hemp : ∀ f ∈ s.floorPlan.floors, f.level = 1 → f.walls = []) :
    addWall s newId st en s.currentFloor = s := by
  apply addWall_of_reject
  rintro ⟨hst, -⟩
  simp only [isPointWithinBounds, if_pos hc] at hst
  rw [getFloor1Footprint_none_of_empty s hemp] at hst
  simp at hst

/-- C4: in every state reachable from the initial plan by drawing walls on
the current floor, switching floors and adding floors, every wall on a floor
above level 1 has both endpoints within the plot rectangle and within the
floor 1 footprint bounding box; and when floor 1 has no walls, addWall on an
upper current floor leaves the state unchanged. -/
theorem upperFloor_footprint_spec :
    (∀ ops : List WallOp, upperFloorsWithinFootprint (applyWallOps initState ops)) ∧
    (∀ (s : FPState) (newId : String) (st en : Point2D),
      1 < s.currentFloor →
      (∀ f ∈ s.floorPlan.floors, f.level = 1 → f.walls = []) →
      addWall s newId st en s.currentFloor = s) := by
  constructor
  · intro ops
    exact applyWallOps_preserves_footprint_inv ops initState footprint_inv_init
  · intro s newId st en hc hemp
    exact addWall_upper_empty_reject s newId st en hc hemp

/-- Witness for C4: with floor 2 selected and no walls on floor 1, drawing a
wall is rejected and the state is unchanged. -/
theorem upperFloor_footprint_spec_witness :
    addWall (setCurrentFloor initState 2) "w1" ⟨5, 5⟩ ⟨6, 5⟩
        (setCurrentFloor initState 2).currentFloor = setCurrentFloor initState 2 := by
  apply upperFloor_footprint_spec.2
  · decide
  · intro f hf
    simp only [setCurrentFloor, initState, initialFloorPlan] at hf
    rw [List.mem_singleton] at hf
    subst hf
    intro _
    rfl

lemma findConnection_spec (segs : List Seg) (used : Finset ℕ) (current : Point2D)
    (i : ℕ) (p : Point2D) (h : findConnection segs used current = some (i, p)) :
    i < segs.length ∧ i ∉ used := by
  obtain ⟨j, hj, hfj⟩ := List.exists_of_findSome?_eq_some h
  rw [List.mem_range] at hj
  by_cases hu : j ∈ used
  · rw [if_pos hu] at hfj
    cases hfj
  · rw [if_neg hu] at hfj
    by_cases h1 : near (segs.getD j default).start current = true
    · rw [if_pos h1] at hfj
      obtain ⟨rfl, -⟩ := Prod.mk.injEq .. |>.mp (Option.some_inj.mp hfj)
      exact ⟨hj, hu⟩
    · rw [if_neg h1] at hfj
      by_cases h2 : near (segs.getD j default).endP current = true
      · rw [if_pos h2] at hfj
        obtain ⟨rfl, -⟩ := Prod.mk.injEq .. |>.mp (Option.some_inj.mp hfj)
        exact ⟨hj, hu⟩
      · rw [if_neg h2] at hfj
        cases hfj

lemma traceLoop_fuel_irrel (segs : List Seg) :
    ∀ (k f1 f2 : ℕ) (used : Finset ℕ) (cur : Point2D) (acc : List Point2D),
      segs.length - used.card = k → k ≤ f1 → k ≤ f2 →
      traceLoop segs f1 used cur acc = traceLoop segs f2 used cur acc := by
  intro k
  induction k with
  | zero =>
      intro f1 f2 used cur acc hk h1 h2
      have hcard : ¬ used.card < segs.length := by omega
      have hstop : ∀ f : ℕ, traceLoop segs f used cur acc = acc := by
        intro f
        cases f with
        | zero => rfl
        | succ f => simp [traceLoop, hcard]
      rw [hstop f1, hstop f2]
  | succ k ih =>
      intro f1 f2 used cur acc hk h1 h2
      obtain ⟨a, rfl⟩ : ∃ a, f1 = a + 1 := ⟨f1 - 1, by omega⟩
      obtain ⟨b, rfl⟩ : ∃ b, f2 = b + 1 := ⟨f2 - 1, by omega⟩
      have hcard : used.card < segs.length := by omega
      show traceLoop segs (a + 1) used cur acc = traceLoop segs (b + 1) used cur acc
      simp only [traceLoop, if_pos hcard]
      cases hfind : findConnection segs used cur with
      | none => rfl
      | some ip =>
          obtain ⟨i, p⟩ := ip
          obtain ⟨hilt, hinot⟩ := findConnection_spec segs used cur i p hfind
          have hcard2 : (insert i used).card = used.card + 1 :=
            Finset.card_insert_of_not_mem hinot
          exact ih a b (insert i used) p (acc ++ [p]) (by omega) (by omega) (by omega)

lemma traceLoop_length_le (segs : List Seg) :
    ∀ (fuel : ℕ) (used : Finset ℕ) (cur : Point2D) (acc : List Point2D),
      (traceLoop segs fuel used cur acc).length ≤
        acc.length + (segs.length - used.card) := by
  intro fuel
  induction fuel with
  | zero => intro used cur acc; simp [traceLoop]
  | succ fuel ih =>
      intro used cur acc
      by_cases hcard : used.card < segs.length
      · simp only [traceLoop, if_pos hcard]
        cases hfind : findConnection segs used cur with
        | none => simp
        | some ip =>
            obtain ⟨i, p⟩ := ip
            obtain ⟨hilt, hinot⟩ := findConnection_spec segs used cur i p hfind
            have hcard2 : (insert i used).card = used.card + 1 :=
              Finset.card_insert_of_not_mem hinot
            calc (traceLoop segs fuel (insert i used) p (acc ++ [p])).length
                ≤ (acc ++ [p]).length + (segs.length - (insert i used).card) := ih _ _ _
              _ ≤ acc.length + (segs.length - used.card) := by
                  simp only [List.length_append, List.length_singleton, hcard2]
                  omega
      · simp [traceLoop, hcard]

/-- C9: the nearest-endpoint perimeter walk terminates for every finite
segment list: a successful matching step always marks a previously unused
segment as used, fuel equal to the number of segments is enough for the
while loop (running it with any larger fuel gives the same result), and the
ordered point list it produces is finite, of length at most the number of
segments plus one. -/
theorem tracePerimeter_terminates :
    (∀ (segs : List Seg) (used : Finset ℕ) (cur : Point2D) (i : ℕ) (p : Point2D),
      findConnection segs used cur = some (i, p) → i < segs.length ∧ i ∉ used) ∧
    (∀ (s0 : Seg) (rest : List Seg) (fuel : ℕ),
      (s0 :: rest).length ≤ fuel →
      traceLoop (s0 :: rest) fuel {0} s0.endP [s0.start, s0.endP] =
        tracePerimeter (s0 :: rest)) ∧
    (∀ segs : List Seg, (tracePerimeter segs).length ≤ segs.length + 1) := by
  refine ⟨findConnection_spec, ?_, ?_⟩
  · intro s0 rest fuel hfuel
    show _ = traceLoop (s0 :: rest) (s0 :: rest).length {0} s0.endP [s0.start, s0.endP]
    apply traceLoop_fuel_irrel (s0 :: rest) ((s0 :: rest).length - ({0} : Finset ℕ).card)
    · rfl
    · have : ({0} : Finset ℕ).card = 1 := rfl
      omega
    · omega
  · intro segs
    cases segs with
    | nil => simp [tracePerimeter]
    | cons s0 rest =>
        show (traceLoop (s0 :: rest) (s0 :: rest).length {0} s0.endP
            [s0.start, s0.endP]).length ≤ (s0 :: rest).length + 1
        calc (traceLoop (s0 :: rest) (s0 :: rest).length {0} s0.endP
              [s0.start, s0.endP]).length
            ≤ [s0.start, s0.endP].length +
                ((s0 :: rest).length - ({0} : Finset ℕ).card) :=
              traceLoop_length_le (s0 :: rest) _ _ _ _
          _ ≤ (s0 :: rest).length + 1 := by
              have : ({0} : Finset ℕ).card = 1 := rfl
              simp only [List.length_cons, List.length_nil, this]
              omega

/-- Witness for C9: a single unit segment is traced with fuel 1, the same
result as the definition, and the step lemma applies to its concrete
matching step. -/
theorem tracePerimeter_terminates_witness :
    traceLoop [⟨⟨0, 0⟩, ⟨1, 0⟩⟩] 1 {0} (⟨1, 0⟩ : Point2D)
        [⟨0, 0⟩, ⟨1, 0⟩] = tracePerimeter [⟨⟨0, 0⟩, ⟨1, 0⟩⟩] :=
  tracePerimeter_terminates.2.1 ⟨⟨0, 0⟩, ⟨1, 0⟩⟩ [] 1 (by decide)

end House
